import Mathlib

/-!
Verification of the calc-research-agent core (src/app.py): the router
(decide_mode / answer_query), the math extraction and evaluation path
(MATH_SEQ / eval_math / run_math), the retry executor (with_retries), the
search pipeline (run_search) and the response validator
(AgentResponse / safe_return).

Python regular expressions are embedded as executable character-list
scanners; the character classes [0-9], \s and \w are modelled over their
ASCII members (the repository only exercises ASCII input). The external
numexpr engine is not part of the repository; its restricted arithmetic
evaluation is modelled from the spec (section 4.2).
-/

namespace CalcAgent

/-- ASCII decimal digit, the class [0-9] used by the routing and math regexes. -/
def pyIsDigit (c : Char) : Bool := '0' ≤ c && c ≤ '9'

/-- Whitespace as in Python re \s, restricted to its ASCII members. -/
def pyIsSpace (c : Char) : Bool :=
  c = ' ' || c = '\t' || c = '\n' || c = '\r' || c = '\x0b' || c = '\x0c'

/-- The operator class of the router regex in decide_mode: [+ - * / ^ %]. -/
def modeOp (c : Char) : Bool :=
  c = '+' || c = '-' || c = '*' || c = '/' || c = '^' || c = '%'

/-- Word character as used by the \b boundaries of the trigger regex,
restricted to ASCII: letters, digits, underscore. -/
def wordChar (c : Char) : Bool := c.isAlpha || pyIsDigit c || c = '_'

/-- Head of the list is a digit. -/
def headDigit (cs : List Char) : Bool :=
  match cs with
  | c :: _ => pyIsDigit c
  | [] => false

/-- After the operator: optional whitespace, then a digit. -/
def afterOp (rest : List Char) : Bool := headDigit (rest.dropWhile pyIsSpace)

/-- An operator from the router class followed (after optional whitespace) by a digit. -/
def opThenDigit (r : List Char) : Bool :=
  match r with
  | op :: rest => modeOp op && afterOp rest
  | [] => false

/-- The router arithmetic regex [0-9]+\s*[+-*/^%]\s*[0-9]+ matches starting
at this position: a digit here, then (skipping the digit run and optional
whitespace) an operator and a further digit. -/
def arithHere (cs : List Char) : Bool :=
  headDigit cs && opThenDigit ((cs.dropWhile pyIsDigit).dropWhile pyIsSpace)

/-- re.search of the router arithmetic pattern: try every start position. -/
def arithSearch : List Char → Bool
  | [] => false
  | c :: cs => arithHere (c :: cs) || arithSearch cs

/-- The trigger words of the router regex, as lower-case character lists. -/
def triggers : List (List Char) :=
  ["calc".toList, "compute".toList, "what is".toList, "how many".toList]

/-- Match a fixed character sequence at the head, returning the remainder. -/
def takeSeq : List Char → List Char → Option (List Char)
  | [], cs => some cs
  | _ :: _, [] => none
  | t :: ts, c :: cs => if c = t then takeSeq ts cs else none

/-- Word boundary after a trigger: end of string or a non-word character. -/
def boundaryAfter (cs : List Char) : Bool :=
  match cs with
  | [] => true
  | c :: _ => !wordChar c

/-- Some trigger matches at this position, with a word boundary after it. -/
def trigHere (cs : List Char) : Bool :=
  triggers.any fun t =>
    match takeSeq t cs with
    | some rest => boundaryAfter rest
    | none => false

/-- Scan for a whole-word trigger. prevW records whether the previous
character is a word character (false at the start of the string), giving the
\b boundary before the match. -/
def trigSearch : Bool → List Char → Bool
  | _, [] => false
  | prevW, c :: cs => (!prevW && trigHere (c :: cs)) || trigSearch (wordChar c) cs

/-- decide_mode from app.py: math iff the arithmetic regex matches the query
or a trigger word matches case-insensitively as a whole word; otherwise search. -/
def decide_mode (query : String) : String :=
  if arithSearch query.toList || trigSearch false (query.toList.map Char.toLower)
  then "math" else "search"

/-- Every character of the list is a digit. -/
def AllDigits (l : List Char) : Prop := ∀ c ∈ l, pyIsDigit c = true

/-- Every character of the list is whitespace. -/
def AllSpaces (l : List Char) : Prop := ∀ c ∈ l, pyIsSpace c = true

/-- Declarative form of the arithmetic half of the claim: the query contains
a substring made of one-or-more digits, optional whitespace, one operator
from + - * / ^ %, optional whitespace, one-or-more digits. -/
def HasArith (cs : List Char) : Prop :=
  ∃ pre d1 w1 op w2 d2 post,
    cs = pre ++ (d1 ++ (w1 ++ (op :: (w2 ++ (d2 ++ post))))) ∧
    d1 ≠ [] ∧ AllDigits d1 ∧ AllSpaces w1 ∧ modeOp op = true ∧
    AllSpaces w2 ∧ d2 ≠ [] ∧ AllDigits d2

/-- Declarative word boundary after the matched trigger. -/
def BoundaryAfterP (post : List Char) : Prop :=
  post = [] ∨ ∃ c cs, post = c :: cs ∧ wordChar c = false

/-- Declarative word boundary before the matched trigger: either the match is
at the start (and then the scanner state must say no word character precedes),
or the preceding character is not a word character. -/
def PreOK (prevW : Bool) (pre : List Char) : Prop :=
  (pre = [] ∧ prevW = false) ∨ ∃ l p, pre = l ++ [p] ∧ wordChar p = false

/-- Declarative form of the trigger half of the claim: the (lower-cased)
query contains one of the trigger words as a whole word. -/
def HasTrigger (cs : List Char) : Prop :=
  ∃ pre t post, t ∈ triggers ∧ cs = pre ++ (t ++ post) ∧ PreOK false pre ∧ BoundaryAfterP post

/-- Python str.strip(): remove leading and trailing whitespace. -/
def stripChars (cs : List Char) : List Char :=
  ((cs.dropWhile pyIsSpace).reverse.dropWhile pyIsSpace).reverse

/-- str.strip() on a String. -/
def pyStrip (s : String) : String := (stripChars s.toList).asString

/-- query.replace with the caret replaced by the double-star power operator,
as run_math and eval_math do before scanning and evaluating. -/
def replaceCaret : List Char → List Char
  | [] => []
  | '^' :: r => '*' :: '*' :: replaceCaret r
  | c :: r => c :: replaceCaret r

/-- The operator and parenthesis alternative of MATH_SEQ: [+ - * / % ( )]. -/
def mathOpTok (c : Char) : Bool :=
  c = '+' || c = '-' || c = '*' || c = '/' || c = '%' || c = '(' || c = ')'

/-- The optional exponent of a MATH_SEQ number token: [eE][+-]?digits.
Returns the consumed characters and the remainder, or none when the
exponent is not well formed (the regex then keeps the number without it). -/
def expTok (cs : List Char) : Option (List Char × List Char) :=
  match cs with
  | c :: rest =>
    if c = 'e' ∨ c = 'E' then
      match rest with
      | s :: rest2 =>
        if s = '+' ∨ s = '-' then
          let ds := rest2.takeWhile pyIsDigit
          if ds = [] then none else some (c :: s :: ds, rest2.dropWhile pyIsDigit)
        else
          let ds := rest.takeWhile pyIsDigit
          if ds = [] then none else some (c :: ds, rest.dropWhile pyIsDigit)
      | [] => none
    else none
  | [] => none

/-- Attach the optional exponent to a number token. -/
def withExpTok (tok : List Char) (rest : List Char) : List Char × List Char :=
  match expTok rest with
  | some (e, rest2) => (tok ++ e, rest2)
  | none => (tok, rest)

/-- The number alternative of MATH_SEQ: digits[.digits] | .digits | digits,
with the optional exponent. Returns the token and the remainder. -/
def numTok (cs : List Char) : Option (List Char × List Char) :=
  let ds := cs.takeWhile pyIsDigit
  let r := cs.dropWhile pyIsDigit
  if ds = [] then
    match r with
    | '.' :: r2 =>
      let fs := r2.takeWhile pyIsDigit
      if fs = [] then none
      else some (withExpTok ('.' :: fs) (r2.dropWhile pyIsDigit))
    | _ => none
  else
    match r with
    | '.' :: r2 =>
      let fs := r2.takeWhile pyIsDigit
      some (withExpTok (ds ++ '.' :: fs) (r2.dropWhile pyIsDigit))
    | _ => some (withExpTok ds r)

/-- One alternative of the MATH_SEQ group: a number, an operator or
parenthesis, or a whitespace run. -/
def oneTok (cs : List Char) : Option (List Char × List Char) :=
  match numTok cs with
  | some r => some r
  | none =>
    match cs with
    | c :: rest =>
      if mathOpTok c then some ([c], rest)
      else if pyIsSpace c then some (c :: rest.takeWhile pyIsSpace, rest.dropWhile pyIsSpace)
      else none
    | [] => none

/-- Greedy repetition of MATH_SEQ alternatives: one maximal token run. -/
def tokRun : Nat → List Char → List Char × List Char
  | 0, cs => ([], cs)
  | Nat.succ f, cs =>
    match oneTok cs with
    | some (t, rest) =>
      let tr := tokRun f rest
      (t ++ tr.1, tr.2)
    | none => ([], cs)

/-- MATH_SEQ.finditer: all maximal token runs of the text, in order. -/
def findRuns : Nat → List Char → List (List Char)
  | 0, _ => []
  | Nat.succ f, cs =>
    match cs with
    | [] => []
    | c :: rest =>
      match oneTok (c :: rest) with
      | some _ =>
        let tr := tokRun (c :: rest).length (c :: rest)
        tr.1 :: findRuns f tr.2
      | none => findRuns f rest

/-- Python max(matches, key=len): the first run of maximal length. -/
def maxByLen : List (List Char) → List Char
  | [] => []
  | m :: ms => ms.foldl (fun best x => if x.length > best.length then x else best) m

/-- Failure modes of the spec-modelled arithmetic evaluation. -/
inductive EvalErr
  | parseFail
  | zeroDiv
  | powFail
deriving DecidableEq

/-- The exceptions run_math can raise: ValueError "No math expression found."
(the extraction failure), ValueError "Invalid characters in expression."
(the eval_math character gate), or a failure propagating out of ne.evaluate. -/
inductive MathErr
  | noExpr
  | invalidChars
  | evalFail (e : EvalErr)
deriving DecidableEq

/-- Decimal value of a digit run. -/
def digitsVal (ds : List Char) : Nat := ds.foldl (fun n c => 10 * n + (c.toNat - 48)) 0

/-- Exact fraction values standing for the numbers the modelled evaluator
computes: numerator and positive denominator, kept unnormalized so that
every operation is plain integer arithmetic (formatting normalizes). -/
structure PyNum where
  num : Int
  den : Int
deriving DecidableEq

/-- Build a fraction with a positive denominator. -/
def mkPyNum (n d : Int) : PyNum := if d < 0 then ⟨-n, -d⟩ else ⟨n, d⟩

/-- An integer value as a fraction. -/
def ofNatNum (n : Nat) : PyNum := ⟨n, 1⟩

/-- Integer power by plain recursion. -/
def ipow (a : Int) : Nat → Int
  | 0 => 1
  | Nat.succ k => a * ipow a k

def pyAdd (a b : PyNum) : PyNum := ⟨a.num * b.den + b.num * a.den, a.den * b.den⟩

def pySub (a b : PyNum) : PyNum := ⟨a.num * b.den - b.num * a.den, a.den * b.den⟩

def pyMul (a b : PyNum) : PyNum := ⟨a.num * b.num, a.den * b.den⟩

def pyDiv (a b : PyNum) : PyNum := mkPyNum (a.num * b.den) (a.den * b.num)

def pyNeg (a : PyNum) : PyNum := ⟨-a.num, a.den⟩

/-- Floor of the fraction (denominators are positive). -/
def pyFloor (a : PyNum) : Int := a.num.fdiv a.den

def pyIsZero (a : PyNum) : Bool := a.num = 0

/-- Whether the fraction is an integer. -/
def pyIsInt (a : PyNum) : Bool := a.num.emod a.den = 0

/-- Optional exponent in a number literal of the evaluated expression. -/
def parseExpOpt (v : PyNum) (cs : List Char) : PyNum × List Char :=
  match cs with
  | c :: rest =>
    if c = 'e' ∨ c = 'E' then
      match rest with
      | s :: rest2 =>
        if s = '+' then
          let ds := rest2.takeWhile pyIsDigit
          if ds = [] then (v, c :: rest)
          else (pyMul v ⟨ipow 10 (digitsVal ds), 1⟩, rest2.dropWhile pyIsDigit)
        else if s = '-' then
          let ds := rest2.takeWhile pyIsDigit
          if ds = [] then (v, c :: rest)
          else (pyDiv v ⟨ipow 10 (digitsVal ds), 1⟩, rest2.dropWhile pyIsDigit)
        else
          let ds := rest.takeWhile pyIsDigit
          if ds = [] then (v, c :: rest)
          else (pyMul v ⟨ipow 10 (digitsVal ds), 1⟩, rest.dropWhile pyIsDigit)
      | [] => (v, c :: rest)
    else (v, c :: rest)
  | [] => (v, [])

/-- A number literal of the evaluated expression, as an exact fraction. -/
def parseNum (cs : List Char) : Option (PyNum × List Char) :=
  let ds := cs.takeWhile pyIsDigit
  let r := cs.dropWhile pyIsDigit
  if ds = [] then
    match r with
    | '.' :: r2 =>
      let fs := r2.takeWhile pyIsDigit
      if fs = [] then none
      else some (parseExpOpt (pyDiv (ofNatNum (digitsVal fs)) ⟨ipow 10 fs.length, 1⟩)
        (r2.dropWhile pyIsDigit))
    | _ => none
  else
    match r with
    | '.' :: r2 =>
      let fs := r2.takeWhile pyIsDigit
      some (parseExpOpt
        (pyAdd (ofNatNum (digitsVal ds)) (pyDiv (ofNatNum (digitsVal fs)) ⟨ipow 10 fs.length, 1⟩))
        (r2.dropWhile pyIsDigit))
    | _ => some (parseExpOpt (ofNatNum (digitsVal ds)) r)

/-- The binary operators of the evaluated expression language. -/
inductive ArOp
  | add
  | sub
  | mul
  | div
  | mod
  | pow
deriving DecidableEq

def opPrec : ArOp → Nat
  | .add | .sub => 1
  | .mul | .div | .mod => 2
  | .pow => 3

def opRightAssoc : ArOp → Bool
  | .pow => true
  | _ => false

/-- Apply one binary operator over exact fractions. Division and modulo by
zero fail; modulo follows the Python floor convention; a power with a
non-integral exponent is outside the modelled fragment and fails. -/
def evalOp (o : ArOp) (a b : PyNum) : Except EvalErr PyNum :=
  match o with
  | .add => .ok (pyAdd a b)
  | .sub => .ok (pySub a b)
  | .mul => .ok (pyMul a b)
  | .div => if pyIsZero b then .error .zeroDiv else .ok (pyDiv a b)
  | .mod =>
    if pyIsZero b then .error .zeroDiv
    else .ok (pySub a (pyMul b ⟨pyFloor (pyDiv a b), 1⟩))
  | .pow =>
    if pyIsInt b then
      let k := b.num.ediv b.den
      if 0 ≤ k then .ok ⟨ipow a.num k.toNat, ipow a.den k.toNat⟩
      else if pyIsZero a then .error .zeroDiv
      else .ok (mkPyNum (ipow a.den (-k).toNat) (ipow a.num (-k).toNat))
    else .error .powFail

/-- Read one binary operator at the head; the double star is the power
operator and is matched before the single star. -/
def peekOp (cs : List Char) : Option (ArOp × List Char) :=
  match cs with
  | '*' :: '*' :: r => some (.pow, r)
  | '+' :: r => some (.add, r)
  | '-' :: r => some (.sub, r)
  | '*' :: r => some (.mul, r)
  | '/' :: r => some (.div, r)
  | '%' :: r => some (.mod, r)
  | _ => none

/-- Parser modes: a primary expression, or the binary-operator loop
(precedence climbing) with the minimal precedence and accumulated value. -/
inductive PM
  | prim
  | bin (minPrec : Nat) (acc : PyNum)

/-- Modelled from the spec: the restricted numeric expression evaluator that
ne.evaluate provides (the numexpr engine is an external dependency whose
source is not part of this repository; spec section 4.2 describes it as
computing the arithmetic value over the five operators and parentheses, with
division-by-zero and malformed expressions failing). Recursive-descent
precedence-climbing parser-evaluator over exact fractions; the fuel bounds
the recursion depth and is chosen large enough for the whole input. -/
def parseM : Nat → PM → List Char → Except EvalErr (PyNum × List Char)
  | 0, _, _ => .error .parseFail
  | Nat.succ f, PM.prim, cs =>
    match (cs.dropWhile pyIsSpace) with
    | '(' :: r =>
      match parseM f PM.prim r with
      | .error e => .error e
      | .ok (v, r2) =>
        match parseM f (PM.bin 1 v) r2 with
        | .error e => .error e
        | .ok (v2, r3) =>
          match r3.dropWhile pyIsSpace with
          | ')' :: r4 => .ok (v2, r4)
          | _ => .error .parseFail
    | '-' :: r =>
      match parseM f PM.prim r with
      | .error e => .error e
      | .ok (v, r2) =>
        match parseM f (PM.bin (opPrec .pow) v) r2 with
        | .error e => .error e
        | .ok (v2, r3) => .ok (pyNeg v2, r3)
    | '+' :: r => parseM f PM.prim r
    | other =>
      match parseNum other with
      | some (v, r) => .ok (v, r)
      | none => .error .parseFail
  | Nat.succ f, PM.bin minPrec acc, cs =>
    match peekOp (cs.dropWhile pyIsSpace) with
    | none => .ok (acc, cs)
    | some (o, r) =>
      if opPrec o < minPrec then .ok (acc, cs)
      else
        match parseM f PM.prim r with
        | .error e => .error e
        | .ok (v, r2) =>
          match parseM f (PM.bin (opPrec o + (if opRightAssoc o then 0 else 1)) v) r2 with
          | .error e => .error e
          | .ok (v2, r3) =>
            match evalOp o acc v2 with
            | .error e => .error e
            | .ok acc2 => parseM f (PM.bin minPrec acc2) r3

/-- Modelled from the spec: ne.evaluate on a validated expression string. A
primary expression followed by the binary-operator loop at the lowest
precedence; trailing input is a malformed expression. -/
def neEvaluate (cs : List Char) : Except EvalErr PyNum :=
  match parseM (4 * cs.length + 16) PM.prim cs with
  | .error e => .error e
  | .ok (v, r) =>
    match parseM (4 * cs.length + 16) (PM.bin 1 v) r with
    | .error e => .error e
    | .ok (v2, r2) =>
      match r2.dropWhile pyIsSpace with
      | [] => .ok v2
      | _ => .error .parseFail

/-- The closed character set of the eval_math validation gate:
[0-9 . + - * / % ( ) whitespace e E]. -/
def evalCharOk (c : Char) : Bool :=
  pyIsDigit c || c = '.' || c = '+' || c = '-' || c = '*' || c = '/' || c = '%' ||
    c = '(' || c = ')' || pyIsSpace c || c = 'e' || c = 'E'

/-- eval_math from app.py: strip, replace the caret, reject on any character
outside the closed set (an empty string also fails the fullmatch), then
evaluate. The numeric value is an exact fraction standing for the float
result. -/
def eval_math (expr : List Char) : Except MathErr PyNum :=
  let e := replaceCaret (stripChars expr)
  if e.isEmpty || !(e.all evalCharOk) then .error .invalidChars
  else
    match neEvaluate e with
    | .error ee => .error (.evalFail ee)
    | .ok v => .ok v

/-- str(float(value)) from run_math, modelled exactly for integral results:
the Python repr of an integral float of small magnitude is the integer
digits followed by dot zero. Non-integral floats use shortest round-trip
formatting, which is approximated by the fraction text and not relied on by
any claim. -/
def pyFloatStr (v : PyNum) : String :=
  if pyIsInt v then toString (v.num.ediv v.den) ++ ".0"
  else toString v.num ++ "/" ++ toString v.den

/-- The raw dict payloads handlers pass around: the three relevant keys,
each possibly absent. A value of the wrong runtime type is modelled as an
absent field. -/
structure RawPayload where
  mode : Option String
  answer : Option String
  sources : Option (List String)
deriving DecidableEq

/-- run_math from app.py: replace the caret, find all MATH_SEQ runs, fail
with the extraction error when there are none, otherwise evaluate the
longest (first on ties) stripped run and return the math payload. -/
def run_math (query : String) : Except MathErr RawPayload :=
  let q := replaceCaret query.toList
  let ms := findRuns (q.length + 1) q
  if ms.isEmpty then .error .noExpr
  else
    match eval_math (stripChars (maxByLen ms)) with
    | .error e => .error e
    | .ok v => .ok ⟨some "math", some (pyFloatStr v), some []⟩

/-- Retry failures: either the exception captured from the operation, or the
TypeError Python raises for `raise None` when the loop body never ran. -/
inductive RetryErr (ε : Type)
  | opErr (e : ε)
  | raiseNoneTypeError
deriving DecidableEq

/-- The loop of with_retries: attempt index, remaining iterations, last
captured exception. The second component counts invocations of fn. The
delay and backoff parameters only feed time.sleep between attempts, which
has no effect on the returned value, and are omitted. -/
def retryLoop {ε α : Type} (fn : Nat → Except ε α) (retryable : ε → Bool) :
    Nat → Nat → Option ε → Except (RetryErr ε) α × Nat
  | _, 0, last =>
    (match last with
     | some e => .error (.opErr e)
     | none => .error .raiseNoneTypeError, 0)
  | i, Nat.succ r, last =>
    match fn i with
    | .ok a => (.ok a, 1)
    | .error e =>
      if retryable e then
        let res := retryLoop fn retryable (i + 1) r (some e)
        (res.1, res.2 + 1)
      else (.error (.opErr e), 1)

/-- with_retries from app.py, also reporting how many times fn was invoked.
fn i is the outcome of the operation on attempt i; retryable tells which
exceptions the except clause catches (others propagate immediately). -/
def with_retries_run {ε α : Type} (fn : Nat → Except ε α) (retryable : ε → Bool)
    (tries : Nat) : Except (RetryErr ε) α × Nat :=
  retryLoop fn retryable 0 tries none

/-- with_retries from app.py: just the returned value or raised exception. -/
def with_retries {ε α : Type} (fn : Nat → Except ε α) (retryable : ε → Bool)
    (tries : Nat) : Except (RetryErr ε) α :=
  (with_retries_run fn retryable tries).1

/-- One raw search result item: the keys run_search reads, possibly absent. -/
structure SearchItem where
  url : Option String
  title : Option String
  content : Option String
deriving DecidableEq

/-- The external collaborators of run_search. searchCall k is the outcome of
tavily.search on attempt k (an exception as error); the wrapper-vs-bare-list
normalization of the raw result is absorbed into the capability, which
yields the item list directly. llmReply is llm.invoke(prompt).content, or an
exception. -/
structure SearchEnv where
  tavilyConfigured : Bool
  searchCall : Nat → Except String (List SearchItem)
  llmReply : String → Except String String

/-- (it.get("url") or "").strip() from the dedup loop. -/
def normUrl (it : SearchItem) : String := pyStrip (it.url.getD "")

/-- The dedup loop of run_search: seen is the membership of the accumulated
sources; after each item the loop stops once three sources are collected. -/
def dedupLoop : List SearchItem → List String → List String
  | [], acc => acc
  | it :: rest, acc =>
    let url := normUrl it
    let acc2 := if url ≠ "" ∧ ¬ url ∈ acc then acc ++ [url] else acc
    if acc2.length = 3 then acc2 else dedupLoop rest acc2

/-- The sources list run_search builds from the raw result items. -/
def dedupSources (items : List SearchItem) : List String := dedupLoop items []

/-- Specification-side first-seen dedup: the URLs appended given the seen
list, ignoring empties, without the three-entry cap. -/
def newUrls (seen : List String) : List String → List String
  | [] => []
  | u :: us => if u = "" ∨ u ∈ seen then newUrls seen us else u :: newUrls (seen ++ [u]) us

/-- One snippet block: title truncated to 120 characters, content with
newlines collapsed to spaces truncated to 600, and the raw URL. -/
def snippetOf (it : SearchItem) : String :=
  "TITLE: " ++ ((it.title.getD "").take 120) ++ "\nSNIPPET: " ++
    (((it.content.getD "").replace "\n" " ").take 600) ++ "\nURL: " ++ it.url.getD ""

/-- str.join with a separator. -/
def joinSep (sep : String) : List String → String
  | [] => ""
  | [s] => s
  | s :: rest => s ++ sep ++ joinSep sep rest

/-- The grounding prompt run_search builds for the summarizer. -/
def buildPrompt (query : String) (snippets : List String) : String :=
  "You are a concise researcher. Using ONLY the information in the snippets below, " ++
  "write EXACTLY three bullet points answering the user\x27s query. " ++
  "No speculation. If insufficient evidence, say so.\n\nUSER QUERY:\n" ++ query ++
  "\n\nSNIPPETS:\n" ++ joinSep "\n\n---\n\n" snippets

/-- The text of the exception interpolated into the Search failed message. -/
def retryErrText : RetryErr String → String
  | .opErr e => e
  | .raiseNoneTypeError => "TypeError: exceptions must derive from BaseException"

/-- run_search from app.py: missing credential short-circuits; the search
call runs under with_retries with three tries and every exception
retryable; every exception inside the try block is converted to an
error-mode payload; otherwise the payload carries the stripped summary and
the deduplicated sources. -/
def run_search (env : SearchEnv) (query : String) : RawPayload :=
  if env.tavilyConfigured = false then
    ⟨some "error", some "Tavily API key not set.", some []⟩
  else
    match with_retries env.searchCall (fun _ => true) 3 with
    | .error e => ⟨some "error", some ("Search failed: " ++ retryErrText e), some []⟩
    | .ok items =>
      let sources := dedupSources items
      let prompt := buildPrompt query ((items.take 3).map snippetOf)
      match env.llmReply prompt with
      | .error e => ⟨some "error", some ("Search failed: " ++ e), some []⟩
      | .ok summary => ⟨some "search", some (pyStrip summary), some sources⟩

/-- The valid mode set of AgentResponse. -/
def VALID_MODES : List String := ["math", "search", "error"]

/-- The mode field validator of AgentResponse: values outside the set are
coerced to error, never rejected. -/
def valid_mode (v : String) : String := if v ∈ VALID_MODES then v else "error"

/-- The validated response model. -/
structure AgentResponse where
  mode : String
  answer : String
  sources : List String
deriving DecidableEq

/-- Pydantic construction AgentResponse(payload): mode and answer are
required (a missing field raises ValidationError), sources defaults to the
empty list, and the mode validator coerces invalid modes. -/
def constructResponse (p : RawPayload) : Except String AgentResponse :=
  match p.mode, p.answer with
  | some m, some a => .ok ⟨valid_mode m, a, p.sources.getD []⟩
  | none, _ => .error "mode: Field required"
  | some _, none => .error "answer: Field required"

/-- model_dump() of a validated response. -/
def modelDump (r : AgentResponse) : RawPayload := ⟨some r.mode, some r.answer, some r.sources⟩

/-- safe_return from app.py: validate and dump, or convert the
ValidationError to an error-mode payload. -/
def safe_return (p : RawPayload) : RawPayload :=
  match constructResponse p with
  | .ok r => modelDump r
  | .error e => ⟨some "error", some ("Invalid payload: " ++ e), some []⟩

/-- Whether pydantic accepts the payload as valid. -/
def acceptsPayload (p : RawPayload) : Bool :=
  match constructResponse p with
  | .ok _ => true
  | .error _ => false

/-- answer_query from app.py: dispatch on decide_mode and validate the
handler output. Exceptions raised by run_math pass through uncaught. -/
def answer_query (env : SearchEnv) (query : String) : Except MathErr RawPayload :=
  if decide_mode query = "math" then (run_math query).map safe_return
  else .ok (safe_return (run_search env query))

/-- A concrete environment with no configured capabilities, for the closed
evaluations. -/
def env0 : SearchEnv :=
  ⟨false, fun _ => .error "network unavailable", fun _ => .error "llm unavailable"⟩

theorem dropWhile_append_all {p : Char → Bool} {xs ys : List Char}
    (h : ∀ c ∈ xs, p c = true) :
    (xs ++ ys).dropWhile p = ys.dropWhile p := by
  induction xs with
  | nil => rfl
  | cons x xs ih =>
    rw [List.cons_append, List.dropWhile_cons]
    rw [h x (List.mem_cons_self x xs)]
    simp only [ite_true]
    exact ih fun c hc => h c (List.mem_cons_of_mem _ hc)

theorem dropWhile_cons_false {p : Char → Bool} {y : Char} {ys : List Char}
    (h : p y = false) : (y :: ys).dropWhile p = y :: ys := by
  rw [List.dropWhile_cons, h]
  simp

theorem space_not_digit {c : Char} (h : pyIsSpace c = true) : pyIsDigit c = false := by
  simp only [pyIsSpace, Bool.or_eq_true, decide_eq_true_eq] at h
  rcases h with ((((h | h) | h) | h) | h) | h <;> subst h <;> decide

theorem modeOp_not_digit {c : Char} (h : modeOp c = true) : pyIsDigit c = false := by
  simp only [modeOp, Bool.or_eq_true, decide_eq_true_eq] at h
  rcases h with ((((h | h) | h) | h) | h) | h <;> subst h <;> decide

theorem modeOp_not_space {c : Char} (h : modeOp c = true) : pyIsSpace c = false := by
  simp only [modeOp, Bool.or_eq_true, decide_eq_true_eq] at h
  rcases h with ((((h | h) | h) | h) | h) | h <;> subst h <;> decide

theorem digit_not_space {c : Char} (h : pyIsDigit c = true) : pyIsSpace c = false := by
  cases hs : pyIsSpace c with
  | false => rfl
  | true => rw [space_not_digit hs] at h; exact absurd h (by simp)

theorem arithHere_intro {d1 w1 w2 d2 post : List Char} {op : Char}
    (hd1 : d1 ≠ []) (had1 : AllDigits d1) (hw1 : AllSpaces w1) (hop : modeOp op = true)
    (hw2 : AllSpaces w2) (hd2 : d2 ≠ []) (had2 : AllDigits d2) :
    arithHere (d1 ++ (w1 ++ (op :: (w2 ++ (d2 ++ post))))) = true := by
  obtain ⟨c, d1t, rfl⟩ := List.exists_cons_of_ne_nil hd1
  obtain ⟨d, d2t, rfl⟩ := List.exists_cons_of_ne_nil hd2
  have hc : pyIsDigit c = true := had1 c (List.mem_cons_self _ _)
  have hd : pyIsDigit d = true := had2 d (List.mem_cons_self _ _)
  have h3 : (w2 ++ ((d :: d2t) ++ post)).dropWhile pyIsSpace = d :: (d2t ++ post) := by
    rw [dropWhile_append_all hw2, List.cons_append]
    exact dropWhile_cons_false (digit_not_space hd)
  have h2 : (w1 ++ (op :: (w2 ++ ((d :: d2t) ++ post)))).dropWhile pyIsSpace
      = op :: (w2 ++ ((d :: d2t) ++ post)) := by
    rw [dropWhile_append_all hw1]
    exact dropWhile_cons_false (modeOp_not_space hop)
  have h1 : ((c :: d1t) ++ (w1 ++ (op :: (w2 ++ ((d :: d2t) ++ post))))).dropWhile pyIsDigit
      = w1 ++ (op :: (w2 ++ ((d :: d2t) ++ post))) := by
    rw [dropWhile_append_all had1]
    cases w1 with
    | nil =>
      rw [List.nil_append]
      exact dropWhile_cons_false (modeOp_not_digit hop)
    | cons s w1t =>
      rw [List.cons_append]
      exact dropWhile_cons_false (space_not_digit (hw1 s (List.mem_cons_self _ _)))
  unfold arithHere
  rw [h1, h2]
  have hhead : headDigit ((c :: d1t) ++ (w1 ++ (op :: (w2 ++ ((d :: d2t) ++ post))))) = true := by
    rw [List.cons_append]
    simp only [headDigit]
    exact hc
  rw [hhead]
  simp only [opThenDigit, afterOp, hop, h3, Bool.true_and]
  simp only [headDigit, hd]

theorem arithHere_elim {cs : List Char} (h : arithHere cs = true) :
    ∃ d1 w1 op w2 d2 post,
      cs = d1 ++ (w1 ++ (op :: (w2 ++ (d2 ++ post)))) ∧ d1 ≠ [] ∧ AllDigits d1 ∧
      AllSpaces w1 ∧ modeOp op = true ∧ AllSpaces w2 ∧ d2 ≠ [] ∧ AllDigits d2 := by
  unfold arithHere at h
  obtain ⟨h1, h2⟩ := Bool.and_eq_true_iff.mp h
  cases hm : (cs.dropWhile pyIsDigit).dropWhile pyIsSpace with
  | nil => rw [hm] at h2; exact absurd h2 (by simp [opThenDigit])
  | cons op rest =>
    rw [hm] at h2
    simp only [opThenDigit] at h2
    obtain ⟨hop, hafter⟩ := Bool.and_eq_true_iff.mp h2
    unfold afterOp at hafter
    cases hm3 : rest.dropWhile pyIsSpace with
    | nil => rw [hm3] at hafter; exact absurd hafter (by simp [headDigit])
    | cons d post =>
      rw [hm3] at hafter
      simp only [headDigit] at hafter
      refine ⟨cs.takeWhile pyIsDigit, (cs.dropWhile pyIsDigit).takeWhile pyIsSpace, op,
        rest.takeWhile pyIsSpace, [d], post, ?_, ?_, ?_, ?_, hop, ?_, ?_, ?_⟩
      · conv_lhs => rw [← List.takeWhile_append_dropWhile pyIsDigit cs]
        congr 1
        conv_lhs => rw [← List.takeWhile_append_dropWhile pyIsSpace (cs.dropWhile pyIsDigit)]
        rw [hm]
        congr 1
        congr 1
        conv_lhs => rw [← List.takeWhile_append_dropWhile pyIsSpace rest]
        rw [hm3]
        simp
      · cases cs with
        | nil => exact absurd h1 (by simp [headDigit])
        | cons c cs0 =>
          simp only [headDigit] at h1
          rw [List.takeWhile_cons, h1]
          simp
      · intro c hc; exact List.mem_takeWhile_imp hc
      · intro c hc; exact List.mem_takeWhile_imp hc
      · intro c hc; exact List.mem_takeWhile_imp hc
      · simp
      · intro c hc
        simp only [List.mem_singleton] at hc
        subst hc
        exact hafter

theorem arithSearch_iff (cs : List Char) : arithSearch cs = true ↔ HasArith cs := by
  induction cs with
  | nil =>
    constructor
    · intro h; exact absurd h (by simp [arithSearch])
    · rintro ⟨pre, d1, w1, op, w2, d2, post, heq, hd1, -⟩
      have := congrArg List.length heq
      simp only [List.length_nil, List.length_append, List.length_cons] at this
      omega
  | cons c cs ih =>
    simp only [arithSearch, Bool.or_eq_true]
    constructor
    · rintro (h | h)
      · obtain ⟨d1, w1, op, w2, d2, post, heq, rest⟩ := arithHere_elim h
        exact ⟨[], d1, w1, op, w2, d2, post, by simpa using heq, rest⟩
      · obtain ⟨pre, d1, w1, op, w2, d2, post, heq, rest⟩ := ih.mp h
        exact ⟨c :: pre, d1, w1, op, w2, d2, post, by simp [heq], rest⟩
    · rintro ⟨pre, d1, w1, op, w2, d2, post, heq, hd1, had1, hw1, hop, hw2, hd2, had2⟩
      cases pre with
      | nil =>
        left
        simp only [List.nil_append] at heq
        rw [heq]
        exact arithHere_intro hd1 had1 hw1 hop hw2 hd2 had2
      | cons p pre2 =>
        right
        simp only [List.cons_append, List.cons.injEq] at heq
        exact ih.mpr ⟨pre2, d1, w1, op, w2, d2, post, heq.2, hd1, had1, hw1, hop, hw2, hd2, had2⟩

theorem triggers_ne_nil : ∀ t ∈ triggers, t ≠ [] := by decide

theorem takeSeq_eq_some {t cs rest : List Char} :
    takeSeq t cs = some rest ↔ cs = t ++ rest := by
  induction t generalizing cs with
  | nil => simp [takeSeq]
  | cons a t ih =>
    cases cs with
    | nil => simp [takeSeq]
    | cons c cs =>
      simp only [takeSeq, List.cons_append, List.cons.injEq]
      by_cases hc : c = a
      · subst hc
        simp [ih]
      · simp [hc]

theorem boundaryAfter_iff (post : List Char) :
    boundaryAfter post = true ↔ BoundaryAfterP post := by
  cases post with
  | nil => simp [boundaryAfter, BoundaryAfterP]
  | cons c cs =>
    simp only [boundaryAfter, BoundaryAfterP, Bool.not_eq_true']
    constructor
    · intro h
      exact Or.inr ⟨c, cs, rfl, h⟩
    · rintro (h | ⟨c2, cs2, heq, h⟩)
      · exact absurd h (by simp)
      · injection heq with h1 h2
        subst h1
        exact h

theorem trigHere_iff (cs : List Char) :
    trigHere cs = true ↔ ∃ t post, t ∈ triggers ∧ cs = t ++ post ∧ BoundaryAfterP post := by
  unfold trigHere
  rw [List.any_eq_true]
  constructor
  · rintro ⟨t, ht, hmatch⟩
    cases hts : takeSeq t cs with
    | none => rw [hts] at hmatch; exact absurd hmatch (by simp)
    | some rest =>
      rw [hts] at hmatch
      exact ⟨t, rest, ht, takeSeq_eq_some.mp hts, (boundaryAfter_iff rest).mp hmatch⟩
  · rintro ⟨t, post, ht, heq, hb⟩
    refine ⟨t, ht, ?_⟩
    rw [takeSeq_eq_some.mpr heq]
    exact (boundaryAfter_iff post).mpr hb

theorem trigSearch_iff (cs : List Char) (prevW : Bool) :
    trigSearch prevW cs = true ↔
      ∃ pre t post, t ∈ triggers ∧ cs = pre ++ (t ++ post) ∧
        PreOK prevW pre ∧ BoundaryAfterP post := by
  induction cs generalizing prevW with
  | nil =>
    constructor
    · intro h; exact absurd h (by simp [trigSearch])
    · rintro ⟨pre, t, post, ht, heq, -, -⟩
      have hne : t ≠ [] := triggers_ne_nil t ht
      have hlen := congrArg List.length heq
      simp only [List.length_nil, List.length_append] at hlen
      have : t.length ≠ 0 := fun h0 => hne (List.length_eq_zero.mp h0)
      omega
  | cons c cs ih =>
    simp only [trigSearch, Bool.or_eq_true, Bool.and_eq_true, Bool.not_eq_true']
    constructor
    · rintro (⟨hp, hh⟩ | h)
      · obtain ⟨t, post, ht, heq, hb⟩ := (trigHere_iff _).mp hh
        exact ⟨[], t, post, ht, by simpa using heq, Or.inl ⟨rfl, hp⟩, hb⟩
      · obtain ⟨pre, t, post, ht, heq, hpre, hb⟩ := (ih _).mp h
        refine ⟨c :: pre, t, post, ht, by simp [heq], ?_, hb⟩
        rcases hpre with ⟨rfl, hw⟩ | ⟨l, p, rfl, hp⟩
        · exact Or.inr ⟨[], c, rfl, hw⟩
        · exact Or.inr ⟨c :: l, p, rfl, hp⟩
    · rintro ⟨pre, t, post, ht, heq, hpre, hb⟩
      cases pre with
      | nil =>
        left
        simp only [List.nil_append] at heq
        rcases hpre with ⟨-, hw⟩ | ⟨l, p, hl, -⟩
        · exact ⟨hw, (trigHere_iff _).mpr ⟨t, post, ht, heq, hb⟩⟩
        · exact absurd hl (by simp)
      | cons q pre2 =>
        right
        simp only [List.cons_append, List.cons.injEq] at heq
        obtain ⟨hcq, heq2⟩ := heq
        subst hcq
        apply (ih _).mpr
        refine ⟨pre2, t, post, ht, heq2, ?_, hb⟩
        rcases hpre with ⟨hnil, -⟩ | ⟨l, p, hl, hp⟩
        · exact absurd hnil (by simp)
        · cases l with
          | nil =>
            simp only [List.nil_append, List.cons.injEq] at hl
            obtain ⟨hcp, hpre2⟩ := hl
            subst hcp
            exact Or.inl ⟨hpre2.symm ▸ rfl, hp⟩
          | cons a l2 =>
            simp only [List.cons_append, List.cons.injEq] at hl
            obtain ⟨-, hl2⟩ := hl
            exact Or.inr ⟨l2, p, hl2, hp⟩

theorem trigSearch_start_iff (cs : List Char) :
    trigSearch false cs = true ↔ HasTrigger cs := trigSearch_iff cs false

theorem newUrls_sublist (us : List String) : ∀ seen, (newUrls seen us).Sublist us := by
  induction us with
  | nil => intro seen; exact List.nil_sublist _
  | cons u us ih =>
    intro seen
    by_cases h : u = "" ∨ u ∈ seen
    · rw [newUrls, if_pos h]
      exact (ih seen).cons u
    · rw [newUrls, if_neg h]
      exact (ih (seen ++ [u])).cons₂ u

theorem newUrls_nodup (us : List String) :
    ∀ seen, seen.Nodup → (seen ++ newUrls seen us).Nodup := by
  induction us with
  | nil => intro seen h; simpa [newUrls] using h
  | cons u us ih =>
    intro seen hseen
    by_cases h : u = "" ∨ u ∈ seen
    · rw [newUrls, if_pos h]
      exact ih seen hseen
    · rw [newUrls, if_neg h]
      push_neg at h
      rw [List.append_cons seen u (newUrls (seen ++ [u]) us)]
      apply ih (seen ++ [u])
      exact List.nodup_append.mpr ⟨hseen, List.nodup_singleton u,
        fun a ha hb => by simp only [List.mem_singleton] at hb; subst hb; exact h.2 ha⟩

theorem dedupLoop_take (items : List SearchItem) :
    ∀ acc, acc.length < 3 →
      dedupLoop items acc = (acc ++ newUrls acc (items.map normUrl)).take 3 := by
  induction items with
  | nil =>
    intro acc hlen
    simp only [dedupLoop, List.map_nil, newUrls, List.append_nil]
    exact (List.take_of_length_le (Nat.le_of_lt hlen)).symm
  | cons it rest ih =>
    intro acc hlen
    simp only [dedupLoop, List.map_cons]
    by_cases hcond : normUrl it ≠ "" ∧ ¬ normUrl it ∈ acc
    · rw [if_pos hcond]
      have hskip : ¬ (normUrl it = "" ∨ normUrl it ∈ acc) := by
        push_neg
        exact hcond
      rw [newUrls, if_neg hskip]
      by_cases h3 : (acc ++ [normUrl it]).length = 3
      · rw [if_pos h3]
        rw [List.append_cons acc (normUrl it) (newUrls (acc ++ [normUrl it]) (rest.map normUrl))]
        exact (List.take_left' h3).symm
      · rw [if_neg h3]
        have hlt : (acc ++ [normUrl it]).length < 3 := by
          simp only [List.length_append, List.length_singleton]
          simp only [List.length_append, List.length_singleton] at h3
          omega
        rw [ih (acc ++ [normUrl it]) hlt]
        rw [List.append_cons acc (normUrl it) (newUrls (acc ++ [normUrl it]) (rest.map normUrl))]
    · rw [if_neg hcond]
      have hskip : normUrl it = "" ∨ normUrl it ∈ acc := by
        by_contra hq
        push_neg at hq
        exact hcond ⟨hq.1, hq.2⟩
      rw [newUrls, if_pos hskip]
      have hne : ¬ acc.length = 3 := by omega
      rw [if_neg hne]
      exact ih acc hlen

theorem dedupSources_characterization (items : List SearchItem) :
    dedupSources items = (newUrls [] (items.map normUrl)).take 3 := by
  have h := dedupLoop_take items [] (by decide)
  simpa [dedupSources] using h

theorem valid_mode_idem (m : String) : valid_mode (valid_mode m) = valid_mode m := by
  unfold valid_mode
  by_cases h : m ∈ VALID_MODES
  · rw [if_pos h, if_pos h]
  · rw [if_neg h, if_pos (by decide)]

/-- C1: the claim states that answer_query never raises for any query, every
handler failure having been converted to an error payload. The code violates
this: when decide_mode routes to math and run_math raises, the exception
passes through answer_query uncaught. At the query calc the router picks
math, MATH_SEQ finds no run and the ValueError propagates to the caller. -/
theorem claim_C1_counterexample :
    answer_query env0 "calc" = Except.error MathErr.noExpr := by rfl

/-- C1 amended: for every query classified search, answer_query returns the
validated run_search payload and never raises (run_search converts every
internal failure itself); but when the query is classified math and run_math
raises, answer_query re-raises that same exception to its caller. -/
theorem claim_C1_amended (env : SearchEnv) (q : String) :
    (decide_mode q = "search" →
      answer_query env q = Except.ok (safe_return (run_search env q))) ∧
    (∀ e, decide_mode q = "math" → run_math q = Except.error e →
      answer_query env q = Except.error e) := by
  constructor
  · intro hs
    unfold answer_query
    rw [if_neg (fun hm => by rw [hm] at hs; exact absurd hs (by decide))]
  · intro e hm he
    unfold answer_query
    rw [if_pos hm, he]
    rfl

/-- C1 witness: a concrete search-classified query returns the validated
payload, and a concrete math-classified query on which run_math raises makes
answer_query propagate the extraction error. -/
theorem claim_C1_witness :
    answer_query env0 "weather" = Except.ok (safe_return (run_search env0 "weather")) ∧
    answer_query env0 "compute" = Except.error MathErr.noExpr :=
  ⟨(claim_C1_amended env0 "weather").1 (by rfl),
   (claim_C1_amended env0 "compute").2 MathErr.noExpr (by rfl) (by rfl)⟩

/-- C2: decide_mode returns math exactly when the query contains a substring
of the form digits, optional whitespace, an operator from + - * / ^ %,
optional whitespace, digits, or contains one of the triggers calc, compute,
what is, how many case-insensitively as a whole word; every other query
returns search. -/
theorem claim_C2_router (q : String) :
    (decide_mode q = "math" ↔
      HasArith q.toList ∨ HasTrigger (q.toList.map Char.toLower)) ∧
    (decide_mode q = "search" ↔
      ¬ (HasArith q.toList ∨ HasTrigger (q.toList.map Char.toLower))) := by
  have hOr : (arithSearch q.toList || trigSearch false (q.toList.map Char.toLower)) = true
      ↔ (HasArith q.toList ∨ HasTrigger (q.toList.map Char.toLower)) := by
    rw [Bool.or_eq_true]
    exact or_congr (arithSearch_iff _) (trigSearch_start_iff _)
  unfold decide_mode
  by_cases hd : HasArith q.toList ∨ HasTrigger (q.toList.map Char.toLower)
  · rw [if_pos (hOr.mpr hd)]
    exact ⟨⟨fun _ => hd, fun _ => rfl⟩,
      ⟨fun h => absurd h (by decide), fun hn => absurd hd hn⟩⟩
  · rw [if_neg (fun hb => hd (hOr.mp hb))]
    exact ⟨⟨fun h => absurd h (by decide), fun h2 => absurd h2 hd⟩,
      ⟨fun _ => hd, fun _ => rfl⟩⟩

/-- C2 witness: a query with the arithmetic substring is classified math. -/
theorem claim_C2_witness : decide_mode "what is 2+2" = "math" :=
  (claim_C2_router "what is 2+2").1.mpr
    (Or.inl ⟨"what is ".toList, ['2'], [], '+', [], ['2'], [],
      by decide, by decide,
      (by decide : ∀ c ∈ ['2'], pyIsDigit c = true),
      (by decide : ∀ c ∈ ([] : List Char), pyIsSpace c = true),
      by decide,
      (by decide : ∀ c ∈ ([] : List Char), pyIsSpace c = true),
      by decide,
      (by decide : ∀ c ∈ ['2'], pyIsDigit c = true)⟩)

/-- C3 counterexample: run_math on (23*47)+199 answers the string 1280.0
(str of the Python float), not 1280 as the claim states. -/
theorem claim_C3_counterexample :
    run_math "(23*47)+199" = Except.ok ⟨some "math", some "1280.0", some []⟩ ∧
    "1280.0" ≠ "1280" := ⟨by rfl, by decide⟩

/-- C3 amended: run_math on (23*47)+199 returns mode math, empty sources and
the answer 1280.0, the default text representation of the float 1280.0. -/
theorem claim_C3_amended :
    run_math "(23*47)+199" = Except.ok ⟨some "math", some "1280.0", some []⟩ := by rfl

/-- C4: run_math on the query what is 10/0 fails with the division-by-zero
evaluation error and never returns a numeric answer payload. -/
theorem claim_C4_divzero :
    run_math "what is 10/0" = Except.error (MathErr.evalFail EvalErr.zeroDiv) ∧
    ∀ p, run_math "what is 10/0" ≠ Except.ok p := by
  have h : run_math "what is 10/0" = Except.error (MathErr.evalFail EvalErr.zeroDiv) := by rfl
  exact ⟨h, fun p hp => by rw [h] at hp; exact Except.noConfusion hp⟩

/-- C5: at the input hello world the code does not raise the extraction
error the claim describes; MATH_SEQ matches the whitespace between the
words, the candidate strips to the empty string, and the failure raised is
the eval_math character-gate ValueError instead. -/
theorem claim_C5_behavior :
    run_math "hello world" = Except.error MathErr.invalidChars ∧
    MathErr.invalidChars ≠ MathErr.noExpr := ⟨by rfl, by decide⟩

/-- C6: the sources run_search builds contain no duplicate URLs, number at
most three, and are the first three first-seen (nonempty, stripped) URLs of
the raw result list in order; a successful search-and-summarize run returns
exactly these sources in its payload. -/
theorem claim_C6_dedup (items : List SearchItem) :
    dedupSources items = (newUrls [] (items.map normUrl)).take 3 ∧
    (dedupSources items).Nodup ∧
    (dedupSources items).length ≤ 3 ∧
    (dedupSources items).Sublist (items.map normUrl) ∧
    (∀ q s, run_search ⟨true, fun _ => Except.ok items, fun _ => Except.ok s⟩ q
      = ⟨some "search", some (pyStrip s), some (dedupSources items)⟩) := by
  have hchar := dedupSources_characterization items
  have hnodup : (dedupSources items).Nodup := by
    rw [hchar]
    have h0 : (newUrls [] (items.map normUrl)).Nodup := by
      simpa using newUrls_nodup (items.map normUrl) [] List.nodup_nil
    exact h0.sublist (List.take_sublist _ _)
  refine ⟨hchar, hnodup, ?_, ?_, ?_⟩
  · rw [hchar]
    exact List.length_take_le _ _
  · rw [hchar]
    exact (List.take_sublist _ _).trans (newUrls_sublist (items.map normUrl) [])
  · intro q s
    simp [run_search, with_retries, with_retries_run, retryLoop]

/-- C7: an operation that raises a retryable exception on all three attempts
is invoked exactly three times and with_retries re-raises the exception
captured on the last attempt. -/
theorem claim_C7_retry {ε α : Type} (fn : Nat → Except ε α) (retryable : ε → Bool)
    (h : ∀ i, i < 3 → ∃ e, fn i = Except.error e ∧ retryable e = true) :
    ∃ e2, fn 2 = Except.error e2 ∧
      with_retries_run fn retryable 3 = (Except.error (RetryErr.opErr e2), 3) := by
  obtain ⟨e0, h0, r0⟩ := h 0 (by omega)
  obtain ⟨e1, h1, r1⟩ := h 1 (by omega)
  obtain ⟨e2, h2, r2⟩ := h 2 (by omega)
  refine ⟨e2, h2, ?_⟩
  show retryLoop fn retryable 0 (Nat.succ (Nat.succ (Nat.succ 0))) none
      = (Except.error (RetryErr.opErr e2), 3)
  simp only [retryLoop, h0, r0, h1, r1, h2, r2, if_true]

/-- C7 witness: a concrete always-failing operation is invoked three times
and the last exception is re-raised. -/
theorem claim_C7_witness :
    with_retries_run (fun _ => (Except.error "boom" : Except String Nat)) (fun _ => true) 3
      = (Except.error (RetryErr.opErr "boom"), 3) := by
  obtain ⟨e2, h2, hres⟩ := claim_C7_retry (fun _ => (Except.error "boom" : Except String Nat))
    (fun _ => true) (fun i _ => ⟨"boom", rfl, rfl⟩)
  have he : "boom" = e2 := by injection h2
  rw [← he] at hres
  exact hres

/-- C8: a payload whose mode lies outside the valid set is coerced to an
error-mode payload, keeping its answer and sources, rather than being
rejected or passed through with the invalid mode. -/
theorem claim_C8_validator (m a : String) (s : List String) (h : ¬ m ∈ VALID_MODES) :
    safe_return ⟨some m, some a, some s⟩ = ⟨some "error", some a, some s⟩ := by
  simp [safe_return, constructResponse, modelDump, valid_mode, h]

/-- C8 witness: the bogus-mode payload of the claim is coerced to error with
its answer preserved. -/
theorem claim_C8_witness :
    safe_return ⟨some "bogus", some "x", some []⟩ = ⟨some "error", some "x", some []⟩ :=
  claim_C8_validator "bogus" "x" [] (by decide)

/-- C9: safe_return is idempotent on every payload pydantic accepts as
valid: validating the dumped result again returns the same payload. -/
theorem claim_C9_idempotent (p : RawPayload) (h : acceptsPayload p = true) :
    safe_return (safe_return p) = safe_return p := by
  obtain ⟨pm, pa, ps⟩ := p
  cases pm with
  | none => simp [acceptsPayload, constructResponse] at h
  | some m =>
    cases pa with
    | none => simp [acceptsPayload, constructResponse] at h
    | some a =>
      simp [safe_return, constructResponse, modelDump, valid_mode_idem]

/-- C9 witness: a concrete valid payload is a fixed point of safe_return. -/
theorem claim_C9_witness :
    acceptsPayload ⟨some "math", some "42", some []⟩ = true ∧
    safe_return (safe_return ⟨some "math", some "42", some []⟩)
      = safe_return ⟨some "math", some "42", some []⟩ :=
  ⟨by decide, claim_C9_idempotent ⟨some "math", some "42", some []⟩ (by decide)⟩

/-- C10: with tries = 0 the loop body never runs, the operation is never
invoked (the invocation count is zero), and the final raise re-raises the
still-None last exception, which is the TypeError of raising None, not an
exception produced by the operation. -/
theorem claim_C10_zero_tries {ε α : Type} (fn : Nat → Except ε α) (retryable : ε → Bool) :
    with_retries_run fn retryable 0 = (Except.error RetryErr.raiseNoneTypeError, 0) := rfl

end CalcAgent
